import Mathlib

/-!
Verification of the minios VGA text-buffer writer (`src/vga_buffer.rs`) and of
the test harness / QEMU exit protocol (`src/lib.rs`).

The Rust code is shallowly embedded. The VGA character grid becomes a total
function from row and column indices to screen characters; the Rust `for`
loops over rows and columns become folds over `List.range` / `List.range'`;
machine integers become `Nat` (every value occurring here stays far below any
overflow boundary: columns are bounded by 80, glyph and attribute bytes by
256). Strings are modelled as their raw byte sequences, `List Nat`, mirroring
`s.bytes()`.
-/

namespace Minios

/-- `BUFFER_HEIGHT` from `vga_buffer.rs`: the grid has 25 rows. -/
def BUFFER_HEIGHT : Nat := 25

/-- `BUFFER_WIDTH` from `vga_buffer.rs`: the grid has 80 columns. -/
def BUFFER_WIDTH : Nat := 80

/-- The 16 VGA colors (`enum Color`, `repr(u8)`, discriminants 0–15). -/
inductive Color where
  | Black
  | Blue
  | Green
  | Cyan
  | Red
  | Magenta
  | Brown
  | LightGray
  | DarkGray
  | LightBlue
  | LightGreen
  | LightCyan
  | LightRed
  | Pink
  | Yellow
  | White
deriving DecidableEq, Repr

/-- The `repr(u8)` discriminant of each `Color` variant (`color as u8`). -/
def Color.toU8 : Color → Nat
  | .Black => 0
  | .Blue => 1
  | .Green => 2
  | .Cyan => 3
  | .Red => 4
  | .Magenta => 5
  | .Brown => 6
  | .LightGray => 7
  | .DarkGray => 8
  | .LightBlue => 9
  | .LightGreen => 10
  | .LightCyan => 11
  | .LightRed => 12
  | .Pink => 13
  | .Yellow => 14
  | .White => 15

/-- `struct ColorCode(u8)`: the packed attribute byte. -/
structure ColorCode where
  code : Nat
deriving DecidableEq, Repr

/-- `ColorCode::new`: `ColorCode((background as u8) << 4 | (foreground as u8))`. -/
def ColorCode.new (foreground background : Color) : ColorCode :=
  ⟨(background.toU8 <<< 4) ||| foreground.toU8⟩

/-- `struct ScreenChar`: one cell of the grid, a glyph byte plus an attribute. -/
structure ScreenChar where
  ascii_character : Nat
  color_code : ColorCode
deriving DecidableEq, Repr

/-- The `chars` grid of `struct Buffer`, as a total function on (row, column).
Only indices with row < `BUFFER_HEIGHT` and column < `BUFFER_WIDTH` correspond
to real cells. -/
def Buffer := Nat → Nat → ScreenChar

/-- One volatile cell write, `self.buffer.chars[row][col].write(ch)`. -/
def Buffer.writeCell (buf : Buffer) (row col : Nat) (ch : ScreenChar) : Buffer :=
  fun r c => if r = row ∧ c = col then ch else buf r c

/-- `struct Writer`: cursor column, current attribute, and the grid. -/
structure Writer where
  column_position : Nat
  color_code : ColorCode
  buffer : Buffer

/-- `Writer::clear_row`: write a blank cell (space glyph, current attribute)
into every column of `row`. -/
def Writer.clear_row (w : Writer) (row : Nat) : Writer :=
  let blank : ScreenChar := { ascii_character := 0x20, color_code := w.color_code }
  { w with
    buffer := (List.range BUFFER_WIDTH).foldl
      (fun b col => b.writeCell row col blank) w.buffer }

/-- `Writer::new_line`: for each row 1..`BUFFER_HEIGHT`, copy every cell of that
row into the row above it (rows processed in increasing order, each read
happening after the rows below were already overwritten, exactly as the
in-place Rust loops do), then clear the bottom row and reset the column. -/
def Writer.new_line (w : Writer) : Writer :=
  let shifted : Buffer :=
    (List.range' 1 (BUFFER_HEIGHT - 1)).foldl
      (fun b row =>
        (List.range BUFFER_WIDTH).foldl
          (fun b2 col => b2.writeCell (row - 1) col (b2 row col)) b)
      w.buffer
  let w1 : Writer := { w with buffer := shifted }
  let w2 := w1.clear_row (BUFFER_HEIGHT - 1)
  { w2 with column_position := 0 }

/-- `Writer::write_byte`: a newline byte triggers `new_line`; any other byte is
placed at (bottom row, cursor column), scrolling first when the column has
reached `BUFFER_WIDTH`, and the cursor advances by one. -/
def Writer.write_byte (w : Writer) (byte : Nat) : Writer :=
  if byte = 0x0a then
    w.new_line
  else
    let w' := if w.column_position ≥ BUFFER_WIDTH then w.new_line else w
    let row := BUFFER_HEIGHT - 1
    let col := w'.column_position
    { w' with
      buffer := w'.buffer.writeCell row col
        { ascii_character := byte, color_code := w'.color_code },
      column_position := w'.column_position + 1 }

/-- The byte filter of the `match` in `Writer::write_string`: bytes in
`0x20..=0x7e` and the newline byte pass through unchanged, every other byte is
replaced by `0xfe`. -/
def forwardedByte (byte : Nat) : Nat :=
  if (0x20 ≤ byte ∧ byte ≤ 0x7e) ∨ byte = 0x0a then byte else 0xfe

/-- `Writer::write_string`, iterating the raw bytes of the input in order. -/
def Writer.write_string (w : Writer) (s : List Nat) : Writer :=
  s.foldl (fun w' byte => w'.write_byte (forwardedByte byte)) w

/-- The blank cell written by `clear_row`: a space glyph with attribute `cc`. -/
def blankChar (cc : ColorCode) : ScreenChar :=
  { ascii_character := 0x20, color_code := cc }

theorem Buffer.writeCell_same (buf : Buffer) (row col : Nat) (ch : ScreenChar) :
    buf.writeCell row col ch row col = ch := by
  simp [Buffer.writeCell]

theorem Buffer.writeCell_other (buf : Buffer) (row col : Nat) (ch : ScreenChar)
    (r c : Nat) (h : ¬(r = row ∧ c = col)) :
    buf.writeCell row col ch r c = buf r c := by
  simp only [Buffer.writeCell, if_neg h]

/-- The column loop of `clear_row`, characterised cell by cell. -/
theorem clearRowFold (blank : ScreenChar) (row : Nat) :
    ∀ (n : Nat) (buf : Buffer),
      (List.range n).foldl (fun b col => b.writeCell row col blank) buf
        = fun r c => if r = row ∧ c < n then blank else buf r c := by
  intro n
  induction n with
  | zero =>
    intro buf
    funext r c
    simp
  | succ n ih =>
    intro buf
    rw [List.range_succ, List.foldl_append, ih]
    simp only [List.foldl_cons, List.foldl_nil]
    funext r c
    simp only [Buffer.writeCell]
    split_ifs <;> first | rfl | omega

/-- The column loop of `new_line` for one source row `src` and target row
`dst`: reading through the partially updated buffer is harmless because all
writes of this loop go to row `dst ≠ src`. -/
theorem copyRowFold (src dst : Nat) (hne : src ≠ dst) :
    ∀ (n : Nat) (buf : Buffer),
      (List.range n).foldl (fun b col => b.writeCell dst col (b src col)) buf
        = fun r c => if r = dst ∧ c < n then buf src c else buf r c := by
  intro n
  induction n with
  | zero =>
    intro buf
    funext r c
    simp
  | succ n ih =>
    intro buf
    rw [List.range_succ, List.foldl_append, ih]
    simp only [List.foldl_cons, List.foldl_nil]
    funext r c
    simp only [Buffer.writeCell]
    have hsrc : (if src = dst ∧ n < n then buf src n else buf src n) = buf src n :=
      ite_self _
    rw [hsrc]
    by_cases h1 : r = dst ∧ c = n
    · obtain ⟨rfl, rfl⟩ := h1
      rw [if_pos ⟨rfl, rfl⟩, if_pos ⟨rfl, Nat.lt_succ_self _⟩]
    · rw [if_neg h1]
      by_cases h2 : r = dst ∧ c < n
      · rw [if_pos h2, if_pos ⟨h2.1, Nat.lt_succ_of_lt h2.2⟩]
      · have h3 : ¬(r = dst ∧ c < n + 1) := by
          rintro ⟨rfl, hlt⟩
          rcases Nat.lt_succ_iff_lt_or_eq.mp hlt with h | h
          · exact h2 ⟨rfl, h⟩
          · exact h1 ⟨rfl, h⟩
        rw [if_neg h2, if_neg h3]

/-- The row loop of `new_line`, starting at row `s ≥ 1` and covering `n` rows:
each covered row's content moves up one row, column positions preserved. -/
theorem newLineFold :
    ∀ (n s : Nat), 1 ≤ s →
      ∀ (buf : Buffer),
      (List.range' s n).foldl
        (fun b row => (List.range BUFFER_WIDTH).foldl
          (fun b2 col => b2.writeCell (row - 1) col (b2 row col)) b) buf
        = fun r c =>
            if s - 1 ≤ r ∧ r < s - 1 + n ∧ c < BUFFER_WIDTH then buf (r + 1) c
            else buf r c := by
  intro n
  induction n with
  | zero =>
    intro s hs buf
    simp only [List.range'_zero, List.foldl_nil]
    funext r c
    rw [if_neg (by omega)]
  | succ n ih =>
    intro s hs buf
    rw [List.range'_succ, List.foldl_cons]
    rw [copyRowFold s (s - 1) (by omega) BUFFER_WIDTH buf]
    rw [ih (s + 1) (by omega)]
    funext r c
    by_cases h1 : s + 1 - 1 ≤ r ∧ r < s + 1 - 1 + n ∧ c < BUFFER_WIDTH
    · rw [if_pos h1,
        if_pos (show s - 1 ≤ r ∧ r < s - 1 + (n + 1) ∧ c < BUFFER_WIDTH by omega),
        if_neg (show ¬(r + 1 = s - 1 ∧ c < BUFFER_WIDTH) by omega)]
    · rw [if_neg h1]
      by_cases h2 : r = s - 1 ∧ c < BUFFER_WIDTH
      · rw [if_pos h2,
          if_pos (show s - 1 ≤ r ∧ r < s - 1 + (n + 1) ∧ c < BUFFER_WIDTH by omega)]
        have hs1 : s = r + 1 := by omega
        rw [hs1]
      · rw [if_neg h2,
          if_neg (show ¬(s - 1 ≤ r ∧ r < s - 1 + (n + 1) ∧ c < BUFFER_WIDTH) by omega)]

/-- What `Writer::new_line` does to the whole state: column reset to 0,
attribute unchanged, every in-grid row below the top takes the content of the
row beneath it, the bottom row becomes blank, everything outside the grid is
untouched. -/
theorem Writer.new_line_spec (w : Writer) :
    (w.new_line).column_position = 0 ∧
    (w.new_line).color_code = w.color_code ∧
    (w.new_line).buffer = fun r c =>
      if r < BUFFER_HEIGHT - 1 ∧ c < BUFFER_WIDTH then w.buffer (r + 1) c
      else if r = BUFFER_HEIGHT - 1 ∧ c < BUFFER_WIDTH then blankChar w.color_code
      else w.buffer r c := by
  refine ⟨rfl, rfl, ?_⟩
  show ((({ w with buffer := _ } : Writer).clear_row
      (BUFFER_HEIGHT - 1)) : Writer).buffer = _
  simp only [Writer.new_line, Writer.clear_row]
  rw [clearRowFold, newLineFold (BUFFER_HEIGHT - 1) 1 (by omega)]
  funext r c
  simp only [blankChar]
  by_cases h1 : r = BUFFER_HEIGHT - 1 ∧ c < BUFFER_WIDTH
  · rw [if_pos h1, if_neg (show ¬(r < BUFFER_HEIGHT - 1 ∧ c < BUFFER_WIDTH) by omega),
      if_pos h1]
  · rw [if_neg h1]
    by_cases h2 : 1 - 1 ≤ r ∧ r < 1 - 1 + (BUFFER_HEIGHT - 1) ∧ c < BUFFER_WIDTH
    · rw [if_pos h2, if_pos (show r < BUFFER_HEIGHT - 1 ∧ c < BUFFER_WIDTH by omega)]
    · rw [if_neg h2, if_neg (show ¬(r < BUFFER_HEIGHT - 1 ∧ c < BUFFER_WIDTH) by omega),
        if_neg h1]

theorem Writer.new_line_column (w : Writer) : (w.new_line).column_position = 0 := rfl

theorem Writer.new_line_color (w : Writer) : (w.new_line).color_code = w.color_code := rfl

/-- On the newline byte, `write_byte` is exactly `new_line`. -/
theorem Writer.write_byte_newline (w : Writer) : w.write_byte 0x0a = w.new_line := by
  simp [Writer.write_byte]

/-- `write_byte` on a non-newline byte with the cursor strictly inside the
line: one cell write at (bottom row, cursor column), cursor advances. -/
theorem Writer.write_byte_noWrap (w : Writer) (byte : Nat) (hb : byte ≠ 0x0a)
    (hc : w.column_position < BUFFER_WIDTH) :
    w.write_byte byte =
      { w with
        buffer := w.buffer.writeCell (BUFFER_HEIGHT - 1) w.column_position
          { ascii_character := byte, color_code := w.color_code },
        column_position := w.column_position + 1 } := by
  simp [Writer.write_byte, hb, Nat.not_le.mpr hc]

/-- `write_byte` on a non-newline byte with the cursor at (or past) the line
boundary: scroll first, then place the byte at column 0 of the bottom row. -/
theorem Writer.write_byte_wrap (w : Writer) (byte : Nat) (hb : byte ≠ 0x0a)
    (hc : BUFFER_WIDTH ≤ w.column_position) :
    w.write_byte byte =
      { w.new_line with
        buffer := (w.new_line).buffer.writeCell (BUFFER_HEIGHT - 1) 0
          { ascii_character := byte, color_code := w.color_code },
        column_position := 1 } := by
  simp [Writer.write_byte, hb, hc, Writer.new_line_column, Writer.new_line_color]

theorem Writer.write_byte_color (w : Writer) (byte : Nat) :
    (w.write_byte byte).color_code = w.color_code := by
  by_cases hb : byte = 0x0a
  · subst hb
    rw [Writer.write_byte_newline]
    rfl
  · by_cases hc : w.column_position < BUFFER_WIDTH
    · rw [Writer.write_byte_noWrap w byte hb hc]
    · rw [Writer.write_byte_wrap w byte hb (Nat.not_lt.mp hc)]
      rfl

/-- After any `write_byte` the cursor column is at most `BUFFER_WIDTH`. -/
theorem Writer.write_byte_column_le (w : Writer) (byte : Nat) :
    (w.write_byte byte).column_position ≤ BUFFER_WIDTH := by
  by_cases hb : byte = 0x0a
  · subst hb
    rw [Writer.write_byte_newline, Writer.new_line_column]
    exact Nat.zero_le _
  · by_cases hc : w.column_position < BUFFER_WIDTH
    · rw [Writer.write_byte_noWrap w byte hb hc]
      exact hc
    · rw [Writer.write_byte_wrap w byte hb (Nat.not_lt.mp hc)]
      show 1 ≤ BUFFER_WIDTH
      decide

theorem Writer.write_string_nil (w : Writer) : w.write_string [] = w := rfl

theorem Writer.write_string_cons (w : Writer) (b : Nat) (s : List Nat) :
    w.write_string (b :: s) = (w.write_byte (forwardedByte b)).write_string s := rfl

theorem Writer.write_string_color (w : Writer) (s : List Nat) :
    (w.write_string s).color_code = w.color_code := by
  induction s generalizing w with
  | nil => rfl
  | cons b s ih => rw [Writer.write_string_cons, ih, Writer.write_byte_color]

/-- Number of scrolls (`new_line` calls) performed by one `write_byte`, read
off the branch structure of `Writer::write_byte`. -/
def Writer.write_byteScrolls (w : Writer) (byte : Nat) : Nat :=
  if byte = 0x0a then 1
  else if w.column_position ≥ BUFFER_WIDTH then 1 else 0

/-- Total number of scrolls performed by a `write_string` call. -/
def Writer.write_stringScrolls (w : Writer) : List Nat → Nat
  | [] => 0
  | b :: s => w.write_byteScrolls (forwardedByte b) +
      (w.write_byte (forwardedByte b)).write_stringScrolls s

/-- Every (row, column) index pair the loops of `new_line` (including
`clear_row`) read or write, in order. -/
def newLineAccesses : List (Nat × Nat) :=
  ((List.range' 1 (BUFFER_HEIGHT - 1)).flatMap fun row =>
    (List.range BUFFER_WIDTH).flatMap fun col => [(row, col), (row - 1, col)]) ++
  ((List.range BUFFER_WIDTH).map fun col => (BUFFER_HEIGHT - 1, col))

/-- Every (row, column) index pair one `write_byte` reads or writes. -/
def Writer.write_byteAccesses (w : Writer) (byte : Nat) : List (Nat × Nat) :=
  if byte = 0x0a then newLineAccesses
  else if w.column_position ≥ BUFFER_WIDTH then
    newLineAccesses ++ [(BUFFER_HEIGHT - 1, 0)]
  else [(BUFFER_HEIGHT - 1, w.column_position)]

/-- Every (row, column) index pair a `write_string` call reads or writes. -/
def Writer.write_stringAccesses (w : Writer) : List Nat → List (Nat × Nat)
  | [] => []
  | b :: s => w.write_byteAccesses (forwardedByte b) ++
      (w.write_byte (forwardedByte b)).write_stringAccesses s

/-- The state the global `WRITER` is constructed in: column 0, yellow on
black. The initial contents of the hardware buffer are unknown; blanks here. -/
def freshWriter : Writer :=
  { column_position := 0
    color_code := ColorCode.new Color.Yellow Color.Black
    buffer := fun _ _ => blankChar (ColorCode.new Color.Yellow Color.Black) }

/-- Writer states reachable from a freshly constructed writer (cursor column
0, any attribute, any initial buffer contents) by the public operations. -/
inductive Reachable : Writer → Prop where
  | start (cc : ColorCode) (buf : Buffer) :
      Reachable { column_position := 0, color_code := cc, buffer := buf }
  | write_byte {w : Writer} (byte : Nat) : Reachable w → Reachable (w.write_byte byte)
  | write_string {w : Writer} (s : List Nat) : Reachable w → Reachable (w.write_string s)
  | new_line {w : Writer} : Reachable w → Reachable w.new_line

/-- Writing a run of printable bytes that fits in the remaining space of the
current line: no scroll happens, the bytes land at consecutive columns of the
bottom row carrying the current attribute, the cursor advances by the length
of the run, and no other cell of the grid changes. -/
theorem Writer.write_string_printable :
    ∀ (s : List Nat) (w : Writer),
      (∀ b ∈ s, 0x20 ≤ b ∧ b ≤ 0x7e) →
      w.column_position + s.length ≤ BUFFER_WIDTH →
      (w.write_string s).column_position = w.column_position + s.length ∧
      w.write_stringScrolls s = 0 ∧
      (∀ i, i < s.length →
        (w.write_string s).buffer (BUFFER_HEIGHT - 1) (w.column_position + i)
          = { ascii_character := s.getD i 0, color_code := w.color_code }) ∧
      (∀ r c, ¬(r = BUFFER_HEIGHT - 1 ∧ w.column_position ≤ c ∧
            c < w.column_position + s.length) →
        (w.write_string s).buffer r c = w.buffer r c)
  | [], w, _, _ => by
      refine ⟨rfl, rfl, ?_, ?_⟩
      · intro i hi
        exact absurd hi (Nat.not_lt_zero i)
      · intro r c _
        rfl
  | b :: s, w, hp, hl => by
      have hb := hp b (List.mem_cons_self b s)
      have hfb : forwardedByte b = b := by
        unfold forwardedByte
        rw [if_pos (Or.inl hb)]
      have hb10 : b ≠ 0x0a := by omega
      have hlen : w.column_position + (s.length + 1) ≤ BUFFER_WIDTH := by
        simpa using hl
      have hcol : w.column_position < BUFFER_WIDTH := by omega
      have hstep := Writer.write_byte_noWrap w b hb10 hcol
      have hw1col : (w.write_byte b).column_position = w.column_position + 1 := by
        rw [hstep]
      have hw1color : (w.write_byte b).color_code = w.color_code :=
        Writer.write_byte_color w b
      have hp' : ∀ x ∈ s, 0x20 ≤ x ∧ x ≤ 0x7e := fun x hx =>
        hp x (List.mem_cons_of_mem b hx)
      have hl' : (w.write_byte b).column_position + s.length ≤ BUFFER_WIDTH := by
        omega
      obtain ⟨ihcol, ihscroll, ihcell, ihframe⟩ :=
        Writer.write_string_printable s (w.write_byte b) hp' hl'
      have hsc : w.write_stringScrolls (b :: s) =
          w.write_byteScrolls b + (w.write_byte b).write_stringScrolls s := by
        show w.write_byteScrolls (forwardedByte b) +
          (w.write_byte (forwardedByte b)).write_stringScrolls s = _
        rw [hfb]
      have hbs : w.write_byteScrolls b = 0 := by
        simp [Writer.write_byteScrolls, hb10, Nat.not_le.mpr hcol]
      rw [Writer.write_string_cons, hfb]
      refine ⟨?_, ?_, ?_, ?_⟩
      · rw [ihcol]
        simp only [List.length_cons]
        omega
      · rw [hsc, hbs, ihscroll]
      · intro i hi
        match i with
        | 0 =>
          have hfr : ¬(BUFFER_HEIGHT - 1 = BUFFER_HEIGHT - 1 ∧
              (w.write_byte b).column_position ≤ w.column_position + 0 ∧
              w.column_position + 0 < (w.write_byte b).column_position + s.length) := by
            omega
          rw [ihframe _ _ hfr, hstep]
          show w.buffer.writeCell (BUFFER_HEIGHT - 1) w.column_position
            { ascii_character := b, color_code := w.color_code }
            (BUFFER_HEIGHT - 1) (w.column_position + 0) = _
          rw [Nat.add_zero]
          rw [Buffer.writeCell_same]
          rfl
        | j + 1 =>
          have hj : j < s.length := by
            simpa using hi
          have hcell := ihcell j hj
          rw [hw1col, hw1color] at hcell
          have harith : w.column_position + (j + 1) = w.column_position + 1 + j := by
            omega
          rw [harith, hcell]
          rw [List.getD_cons_succ]
      · intro r c hnc
        simp only [List.length_cons] at hnc
        have h1 : ¬(r = BUFFER_HEIGHT - 1 ∧ (w.write_byte b).column_position ≤ c ∧
            c < (w.write_byte b).column_position + s.length) := by
          omega
        rw [ihframe r c h1, hstep]
        apply Buffer.writeCell_other
        omega

theorem Writer.write_string_column_le (w : Writer) (s : List Nat)
    (h : w.column_position ≤ BUFFER_WIDTH) :
    (w.write_string s).column_position ≤ BUFFER_WIDTH := by
  induction s generalizing w with
  | nil => exact h
  | cons b s ih =>
    rw [Writer.write_string_cons]
    exact ih _ (Writer.write_byte_column_le _ _)

/-- Off the bottom row, `write_byte` can only leave a cell unchanged or (via a
scroll) shift the content of the row below into it; it never places the new
glyph there. -/
theorem Writer.write_byte_offBottom (w : Writer) (byte : Nat) (r c : Nat)
    (hr : r ≠ BUFFER_HEIGHT - 1) :
    (w.write_byte byte).buffer r c = w.buffer r c ∨
    (w.write_byte byte).buffer r c = w.buffer (r + 1) c := by
  have hH : BUFFER_HEIGHT = 25 := rfl
  have hnl : ∀ r c, r ≠ BUFFER_HEIGHT - 1 →
      (w.new_line).buffer r c = w.buffer r c ∨
      (w.new_line).buffer r c = w.buffer (r + 1) c := by
    intro r c hr
    obtain ⟨_, _, h3⟩ := Writer.new_line_spec w
    simp only [h3]
    by_cases h : r < BUFFER_HEIGHT - 1 ∧ c < BUFFER_WIDTH
    · rw [if_pos h]
      right
      rfl
    · rw [if_neg h, if_neg (by omega)]
      left
      rfl
  by_cases hb : byte = 0x0a
  · subst hb
    rw [Writer.write_byte_newline]
    exact hnl r c hr
  · by_cases hc : w.column_position < BUFFER_WIDTH
    · left
      rw [Writer.write_byte_noWrap w byte hb hc]
      exact Buffer.writeCell_other _ _ _ _ _ _ (fun hcon => hr hcon.1)
    · have hwc : (w.write_byte byte).buffer r c = (w.new_line).buffer r c := by
        rw [Writer.write_byte_wrap w byte hb (Nat.not_lt.mp hc)]
        exact Buffer.writeCell_other _ _ _ _ _ _ (fun hcon => hr hcon.1)
      rw [hwc]
      exact hnl r c hr

theorem newLineAccesses_bounds :
    ∀ p ∈ newLineAccesses, p.1 < BUFFER_HEIGHT ∧ p.2 < BUFFER_WIDTH := by
  intro p hp
  have hH : BUFFER_HEIGHT = 25 := rfl
  unfold newLineAccesses at hp
  rcases List.mem_append.mp hp with h | h
  · obtain ⟨row, hrow, h2⟩ := List.mem_flatMap.mp h
    obtain ⟨col, hcolm, h3⟩ := List.mem_flatMap.mp h2
    obtain ⟨i, hi, rfl⟩ := List.mem_range'.mp hrow
    have hcol : col < BUFFER_WIDTH := List.mem_range.mp hcolm
    simp only [List.mem_cons, List.not_mem_nil, or_false] at h3
    rcases h3 with rfl | rfl
    · constructor
      · show 1 + 1 * i < BUFFER_HEIGHT
        omega
      · exact hcol
    · constructor
      · show 1 + 1 * i - 1 < BUFFER_HEIGHT
        omega
      · exact hcol
  · obtain ⟨col, hcolm, rfl⟩ := List.mem_map.mp h
    have hcol : col < BUFFER_WIDTH := List.mem_range.mp hcolm
    constructor
    · show BUFFER_HEIGHT - 1 < BUFFER_HEIGHT
      omega
    · exact hcol

theorem Writer.write_byteAccesses_bounds (w : Writer) (byte : Nat) :
    ∀ p ∈ w.write_byteAccesses byte, p.1 < BUFFER_HEIGHT ∧ p.2 < BUFFER_WIDTH := by
  intro p hp
  unfold Writer.write_byteAccesses at hp
  split_ifs at hp with h1 h2
  · exact newLineAccesses_bounds p hp
  · rcases List.mem_append.mp hp with h | h
    · exact newLineAccesses_bounds p h
    · simp only [List.mem_singleton] at h
      subst h
      constructor
      · show BUFFER_HEIGHT - 1 < BUFFER_HEIGHT
        decide
      · show 0 < BUFFER_WIDTH
        decide
  · simp only [List.mem_singleton] at hp
    subst hp
    constructor
    · show BUFFER_HEIGHT - 1 < BUFFER_HEIGHT
      decide
    · show w.column_position < BUFFER_WIDTH
      omega

theorem Writer.write_stringAccesses_bounds (w : Writer) (s : List Nat) :
    ∀ p ∈ w.write_stringAccesses s, p.1 < BUFFER_HEIGHT ∧ p.2 < BUFFER_WIDTH := by
  induction s generalizing w with
  | nil =>
    intro p hp
    exact absurd hp (List.not_mem_nil p)
  | cons b s ih =>
    intro p hp
    rcases List.mem_append.mp hp with h | h
    · exact Writer.write_byteAccesses_bounds w (forwardedByte b) p h
    · exact ih _ p h

/-- C2: for every writer state, `write_byte` on the newline byte resets the
cursor column to 0 and performs exactly one scroll; the scroll moves row k's
entire content to row k-1 for every row k with 1 ≤ k < HEIGHT, preserving
column positions, and clears the bottom row by writing a blank cell (space
glyph, current attribute) into every column, so no glyph is placed and row 0's
previous contents are discarded. -/
theorem Writer.write_byte_newline_scroll_spec (w : Writer) :
    (w.write_byte 0x0a).column_position = 0 ∧
    w.write_byteScrolls 0x0a = 1 ∧
    (∀ k, 1 ≤ k → k < BUFFER_HEIGHT → ∀ c, c < BUFFER_WIDTH →
      (w.write_byte 0x0a).buffer (k - 1) c = w.buffer k c) ∧
    (∀ c, c < BUFFER_WIDTH →
      (w.write_byte 0x0a).buffer (BUFFER_HEIGHT - 1) c = blankChar w.color_code) := by
  obtain ⟨h1, _, h3⟩ := Writer.new_line_spec w
  refine ⟨by rw [Writer.write_byte_newline]; exact h1,
    by simp [Writer.write_byteScrolls], ?_, ?_⟩
  · intro k hk1 hk2 c hc
    rw [Writer.write_byte_newline]
    simp only [h3]
    rw [if_pos (show k - 1 < BUFFER_HEIGHT - 1 ∧ c < BUFFER_WIDTH by omega)]
    have hk : k - 1 + 1 = k := by omega
    rw [hk]
  · intro c hc
    rw [Writer.write_byte_newline]
    simp only [h3]
    rw [if_neg (show ¬(BUFFER_HEIGHT - 1 < BUFFER_HEIGHT - 1 ∧ c < BUFFER_WIDTH) by omega)]
    simp [hc]

/-- C2 witness: a concrete instance of the newline specification on a fresh
writer, at row 1 and column 0. -/
theorem Writer.write_byte_newline_scroll_spec_witness :
    (freshWriter.write_byte 0x0a).column_position = 0 ∧
    freshWriter.write_byteScrolls 0x0a = 1 ∧
    (freshWriter.write_byte 0x0a).buffer (1 - 1) 0 = freshWriter.buffer 1 0 ∧
    (freshWriter.write_byte 0x0a).buffer (BUFFER_HEIGHT - 1) 0
      = blankChar freshWriter.color_code :=
  ⟨(Writer.write_byte_newline_scroll_spec freshWriter).1,
   (Writer.write_byte_newline_scroll_spec freshWriter).2.1,
   (Writer.write_byte_newline_scroll_spec freshWriter).2.2.1 1 (by decide) (by decide)
     0 (by decide),
   (Writer.write_byte_newline_scroll_spec freshWriter).2.2.2 0 (by decide)⟩

/-- C3: `write_string` handles the bytes of its input in order; a byte in the
printable range 0x20–0x7e or the newline byte is forwarded unchanged to
`write_byte`, while any other byte is forwarded as the replacement glyph 0xfe,
which is then what gets stored at the target cell. All operations involved
are total Lean functions, so no byte can cause an error. -/
theorem Writer.write_string_substitution_spec (w : Writer) (b : Nat) (s : List Nat) :
    ((0x20 ≤ b ∧ b ≤ 0x7e) ∨ b = 0x0a →
      w.write_string (b :: s) = (w.write_byte b).write_string s) ∧
    (¬(0x20 ≤ b ∧ b ≤ 0x7e) → b ≠ 0x0a →
      w.write_string (b :: s) = (w.write_byte 0xfe).write_string s ∧
      (w.column_position < BUFFER_WIDTH →
        (w.write_byte 0xfe).buffer (BUFFER_HEIGHT - 1) w.column_position
          = { ascii_character := 0xfe, color_code := w.color_code })) := by
  constructor
  · intro h
    rw [Writer.write_string_cons]
    have hfb : forwardedByte b = b := by
      unfold forwardedByte
      rw [if_pos h]
    rw [hfb]
  · intro h1 h2
    have hfb : forwardedByte b = 0xfe := by
      unfold forwardedByte
      rw [if_neg]
      rintro (h | h)
      · exact h1 h
      · exact h2 h
    constructor
    · rw [Writer.write_string_cons, hfb]
    · intro hc
      rw [Writer.write_byte_noWrap w 0xfe (by decide) hc]
      exact Buffer.writeCell_same _ _ _ _

/-- C3 witness: byte 0x41 passes through unchanged, byte 0x01 is substituted
by 0xfe and 0xfe is what lands in the cell, on a fresh writer. -/
theorem Writer.write_string_substitution_spec_witness :
    freshWriter.write_string [0x41] = (freshWriter.write_byte 0x41).write_string [] ∧
    freshWriter.write_string [0x01] = (freshWriter.write_byte 0xfe).write_string [] ∧
    (freshWriter.write_byte 0xfe).buffer (BUFFER_HEIGHT - 1) freshWriter.column_position
      = { ascii_character := 0xfe, color_code := freshWriter.color_code } :=
  ⟨(Writer.write_string_substitution_spec freshWriter 0x41 []).1 (by decide),
   ((Writer.write_string_substitution_spec freshWriter 0x01 []).2 (by decide) (by decide)).1,
   ((Writer.write_string_substitution_spec freshWriter 0x01 []).2 (by decide) (by decide)).2
     (by decide)⟩

/-- C6: after n < WIDTH printable-byte writes starting from column 0 on the
bottom row, writing a further printable byte b stores the cell {glyph = b,
attribute = current attribute} at column n of the bottom row, advances the
cursor from n to n+1, and leaves every other cell of the grid unchanged. -/
theorem Writer.printable_write_frame_spec (w : Writer) (s : List Nat) (b : Nat)
    (h0 : w.column_position = 0) (hlen : s.length < BUFFER_WIDTH)
    (hs : ∀ x ∈ s, 0x20 ≤ x ∧ x ≤ 0x7e) (hb1 : 0x20 ≤ b) (hb2 : b ≤ 0x7e) :
    (w.write_string s).column_position = s.length ∧
    ((w.write_string s).write_byte b).buffer (BUFFER_HEIGHT - 1) s.length
      = { ascii_character := b, color_code := w.color_code } ∧
    ((w.write_string s).write_byte b).column_position = s.length + 1 ∧
    (∀ r c, ¬(r = BUFFER_HEIGHT - 1 ∧ c = s.length) →
      ((w.write_string s).write_byte b).buffer r c = (w.write_string s).buffer r c) := by
  obtain ⟨hcol, _, _, _⟩ := Writer.write_string_printable s w hs (by omega)
  rw [h0] at hcol
  simp only [Nat.zero_add] at hcol
  have hb10 : b ≠ 0x0a := by omega
  have hc : (w.write_string s).column_position < BUFFER_WIDTH := by omega
  have hstep := Writer.write_byte_noWrap (w.write_string s) b hb10 hc
  have hcc : (w.write_string s).color_code = w.color_code := Writer.write_string_color w s
  refine ⟨hcol, ?_, ?_, ?_⟩
  · rw [hstep, hcc, hcol]
    exact Buffer.writeCell_same _ _ _ _
  · rw [hstep]
    show (w.write_string s).column_position + 1 = s.length + 1
    rw [hcol]
  · intro r c hrc
    rw [hstep]
    apply Buffer.writeCell_other
    omega

/-- C6 witness: writing 0x21 after the two printable bytes 0x48 0x69 from a
fresh writer places it at column 2 with the writer's attribute, moves the
cursor to 3, and leaves cell (0, 0) untouched. -/
theorem Writer.printable_write_frame_spec_witness :
    (freshWriter.write_string [0x48, 0x69]).column_position = 2 ∧
    ((freshWriter.write_string [0x48, 0x69]).write_byte 0x21).buffer
        (BUFFER_HEIGHT - 1) 2
      = { ascii_character := 0x21, color_code := freshWriter.color_code } ∧
    ((freshWriter.write_string [0x48, 0x69]).write_byte 0x21).column_position = 3 ∧
    ((freshWriter.write_string [0x48, 0x69]).write_byte 0x21).buffer 0 0
      = (freshWriter.write_string [0x48, 0x69]).buffer 0 0 :=
  ⟨(Writer.printable_write_frame_spec freshWriter [0x48, 0x69] 0x21 rfl (by decide)
      (by decide) (by decide) (by decide)).1,
   (Writer.printable_write_frame_spec freshWriter [0x48, 0x69] 0x21 rfl (by decide)
      (by decide) (by decide) (by decide)).2.1,
   (Writer.printable_write_frame_spec freshWriter [0x48, 0x69] 0x21 rfl (by decide)
      (by decide) (by decide) (by decide)).2.2.1,
   (Writer.printable_write_frame_spec freshWriter [0x48, 0x69] 0x21 rfl (by decide)
      (by decide) (by decide) (by decide)).2.2.2 0 0 (by decide)⟩

set_option maxRecDepth 8192 in
/-- C1: from column 0, the first WIDTH printable bytes cause no scroll and
leave the cursor at WIDTH; the (WIDTH+1)-th printable byte triggers exactly
one scroll in its `write_byte` call (the scroll happens before the byte is
placed) and lands at column 0 of the scrolled bottom row with the cursor at 1;
the first WIDTH bytes survive intact one row higher, so no byte is dropped or
placed past the WIDTH boundary. -/
theorem Writer.write_width_plus_one_scrolls_once (w : Writer) (s : List Nat) (b : Nat)
    (h0 : w.column_position = 0) (hlen : s.length = BUFFER_WIDTH)
    (hs : ∀ x ∈ s, 0x20 ≤ x ∧ x ≤ 0x7e) (hb1 : 0x20 ≤ b) (hb2 : b ≤ 0x7e) :
    w.write_stringScrolls s = 0 ∧
    (w.write_string s).column_position = BUFFER_WIDTH ∧
    (w.write_string s).write_byteScrolls b = 1 ∧
    ((w.write_string s).write_byte b).buffer (BUFFER_HEIGHT - 1) 0
      = { ascii_character := b, color_code := w.color_code } ∧
    ((w.write_string s).write_byte b).column_position = 1 ∧
    (∀ i, i < BUFFER_WIDTH →
      ((w.write_string s).write_byte b).buffer (BUFFER_HEIGHT - 1 - 1) i
        = { ascii_character := s.getD i 0, color_code := w.color_code }) := by
  obtain ⟨hcol, hscr, hcell, _⟩ := Writer.write_string_printable s w hs (by omega)
  rw [h0] at hcol hcell
  simp only [Nat.zero_add] at hcol hcell
  rw [hlen] at hcol
  have hH : BUFFER_HEIGHT = 25 := rfl
  have hb10 : b ≠ 0x0a := by omega
  have hge : BUFFER_WIDTH ≤ (w.write_string s).column_position := by omega
  have hcc : (w.write_string s).color_code = w.color_code := Writer.write_string_color w s
  have hstep := Writer.write_byte_wrap (w.write_string s) b hb10 hge
  obtain ⟨_, _, hn3⟩ := Writer.new_line_spec (w.write_string s)
  refine ⟨hscr, hcol, ?_, ?_, ?_, ?_⟩
  · simp [Writer.write_byteScrolls, hb10, hge]
  · rw [hstep, hcc]
    show ((w.write_string s).new_line).buffer.writeCell (BUFFER_HEIGHT - 1) 0
        { ascii_character := b, color_code := w.color_code } (BUFFER_HEIGHT - 1) 0
      = { ascii_character := b, color_code := w.color_code }
    exact Buffer.writeCell_same _ _ _ _
  · rw [hstep]
  · intro i hi
    have hwc : ((w.write_string s).write_byte b).buffer (BUFFER_HEIGHT - 1 - 1) i
        = ((w.write_string s).new_line).buffer (BUFFER_HEIGHT - 1 - 1) i := by
      rw [hstep]
      show ((w.write_string s).new_line).buffer.writeCell (BUFFER_HEIGHT - 1) 0
          { ascii_character := b, color_code := (w.write_string s).color_code }
          (BUFFER_HEIGHT - 1 - 1) i
        = ((w.write_string s).new_line).buffer (BUFFER_HEIGHT - 1 - 1) i
      exact Buffer.writeCell_other _ _ _ _ _ _ (by omega)
    rw [hwc]
    simp only [hn3]
    rw [if_pos (show BUFFER_HEIGHT - 1 - 1 < BUFFER_HEIGHT - 1 ∧ i < BUFFER_WIDTH by omega)]
    have harith : BUFFER_HEIGHT - 1 - 1 + 1 = BUFFER_HEIGHT - 1 := by omega
    rw [harith]
    exact hcell i (by omega)

/-- C1 witness: the concrete scenario of 80 copies of 0x48 followed by 0x4f on
a fresh writer. -/
theorem Writer.write_width_plus_one_scrolls_once_witness :
    freshWriter.write_stringScrolls (List.replicate 80 0x48) = 0 ∧
    (freshWriter.write_string (List.replicate 80 0x48)).column_position = BUFFER_WIDTH ∧
    (freshWriter.write_string (List.replicate 80 0x48)).write_byteScrolls 0x4f = 1 ∧
    ((freshWriter.write_string (List.replicate 80 0x48)).write_byte 0x4f).buffer
        (BUFFER_HEIGHT - 1) 0
      = { ascii_character := 0x4f, color_code := freshWriter.color_code } ∧
    ((freshWriter.write_string (List.replicate 80 0x48)).write_byte 0x4f).column_position
      = 1 ∧
    ((freshWriter.write_string (List.replicate 80 0x48)).write_byte 0x4f).buffer
        (BUFFER_HEIGHT - 1 - 1) 0
      = { ascii_character := (List.replicate 80 0x48).getD 0 0,
          color_code := freshWriter.color_code } := by
  have h := Writer.write_width_plus_one_scrolls_once freshWriter
    (List.replicate 80 0x48) 0x4f rfl (by decide)
    (fun x hx => by rw [List.eq_of_mem_replicate hx]; decide) (by decide) (by decide)
  exact ⟨h.1, h.2.1, h.2.2.1, h.2.2.2.1, h.2.2.2.2.1, h.2.2.2.2.2 0 (by decide)⟩

/-- C5 counterexample: the state reached from a fresh writer by writing 80
printable bytes is reachable and has cursor column equal to WIDTH, which is
not strictly below WIDTH — so the column does not stay in the half-open range
0..WIDTH after every operation. -/
theorem Writer.column_can_reach_width :
    Reachable (freshWriter.write_string (List.replicate BUFFER_WIDTH 0x41)) ∧
    (freshWriter.write_string (List.replicate BUFFER_WIDTH 0x41)).column_position
      = BUFFER_WIDTH ∧
    ¬((freshWriter.write_string (List.replicate BUFFER_WIDTH 0x41)).column_position
        < BUFFER_WIDTH) := by
  have hcol : (freshWriter.write_string (List.replicate BUFFER_WIDTH 0x41)).column_position
      = BUFFER_WIDTH := by
    obtain ⟨hcol, _, _, _⟩ := Writer.write_string_printable
      (List.replicate BUFFER_WIDTH 0x41) freshWriter
      (fun x hx => by rw [List.eq_of_mem_replicate hx]; decide) (by decide)
    rw [hcol]
    decide
  refine ⟨?_, hcol, ?_⟩
  · exact Reachable.write_string _ (Reachable.start _ _)
  · rw [hcol]
    exact Nat.lt_irrefl _

/-- C5 (amended): every writer state reachable from a fresh writer (column 0)
by `write_byte`, `write_string` and `new_line` has its cursor column in the
closed range 0..WIDTH (it can equal WIDTH just after a full line), and
`write_byte` never places a glyph outside the bottom row: off the bottom row a
cell either keeps its value or receives the value scrolled up from the row
below. -/
theorem Writer.reachable_column_le_width (w : Writer) (h : Reachable w) :
    w.column_position ≤ BUFFER_WIDTH ∧
    (∀ byte r c, r ≠ BUFFER_HEIGHT - 1 →
      (w.write_byte byte).buffer r c = w.buffer r c ∨
      (w.write_byte byte).buffer r c = w.buffer (r + 1) c) := by
  constructor
  · induction h with
    | start cc buf => exact Nat.zero_le _
    | write_byte byte _ _ => exact Writer.write_byte_column_le _ _
    | write_string s _ ih => exact Writer.write_string_column_le _ s ih
    | new_line _ _ =>
      rw [Writer.new_line_column]
      exact Nat.zero_le _
  · intro byte r c hr
    exact Writer.write_byte_offBottom w byte r c hr

/-- C5 witness: the amended invariant instantiated on a fresh writer, with
byte 0x41 and cell (0, 0). -/
theorem Writer.reachable_column_le_width_witness :
    freshWriter.column_position ≤ BUFFER_WIDTH ∧
    ((freshWriter.write_byte 0x41).buffer 0 0 = freshWriter.buffer 0 0 ∨
     (freshWriter.write_byte 0x41).buffer 0 0 = freshWriter.buffer 1 0) :=
  ⟨(Writer.reachable_column_le_width freshWriter (Reachable.start _ _)).1,
   (Writer.reachable_column_le_width freshWriter (Reachable.start _ _)).2 0x41 0 0
     (by decide)⟩

/-- C4: every buffer access performed by `write_byte` (for any byte, printable
or not), by `write_string` (for any byte list) and by the internal scroll uses
a row index below HEIGHT and a column index below WIDTH, from every writer
state — the grid indexing never goes out of bounds, and the operations are
total functions. -/
theorem Writer.accesses_in_bounds (w : Writer) (byte : Nat) (s : List Nat) :
    (∀ p ∈ w.write_byteAccesses byte, p.1 < BUFFER_HEIGHT ∧ p.2 < BUFFER_WIDTH) ∧
    (∀ p ∈ w.write_stringAccesses s, p.1 < BUFFER_HEIGHT ∧ p.2 < BUFFER_WIDTH) ∧
    (∀ p ∈ newLineAccesses, p.1 < BUFFER_HEIGHT ∧ p.2 < BUFFER_WIDTH) :=
  ⟨Writer.write_byteAccesses_bounds w byte,
   Writer.write_stringAccesses_bounds w s,
   newLineAccesses_bounds⟩

/-- C4 witness: bounds of the single access made by writing 0x41 from a fresh
writer, and of the access made by `write_string [0x42]`. -/
theorem Writer.accesses_in_bounds_witness :
    ((BUFFER_HEIGHT - 1, 0).1 < BUFFER_HEIGHT ∧ (BUFFER_HEIGHT - 1, 0).2 < BUFFER_WIDTH) ∧
    ((1, 0).1 < BUFFER_HEIGHT ∧ (1, 0).2 < BUFFER_WIDTH) :=
  ⟨(Writer.accesses_in_bounds freshWriter 0x41 [0x42]).1 (BUFFER_HEIGHT - 1, 0)
     (by decide),
   (Writer.accesses_in_bounds freshWriter 0x41 [0x0a]).2.2 (1, 0) (by decide)⟩

/-- C7: `ColorCode::new` packs a foreground/background pair as
`(background << 4) | foreground`, and the high and low nibbles of the packed
byte recover exactly the original background and foreground, for every pair of
colors. -/
theorem ColorCode.new_roundTrip (fg bg : Color) :
    (ColorCode.new fg bg).code = (bg.toU8 <<< 4) ||| fg.toU8 ∧
    (ColorCode.new fg bg).code >>> 4 = bg.toU8 ∧
    (ColorCode.new fg bg).code &&& 0xf = fg.toU8 := by
  refine ⟨rfl, ?_, ?_⟩ <;> cases fg <;> cases bg <;> decide

/-! ### The fmt::Write implementation and the `_print` entry point -/

/-- `fmt::Write::write_str` for `Writer`: forward to `write_string` and return
`Ok(())`. The error type of `fmt::Result` is the unit struct `fmt::Error`. -/
def Writer.write_str (w : Writer) (s : List Nat) : Writer × Except Unit Unit :=
  (w.write_string s, Except.ok ())

/-- `write_fmt` as the formatting machinery drives it: the formatted output
reaches `write_str` as a sequence of byte chunks, stopping at the first
chunk that reports an error. -/
def Writer.write_fmt (w : Writer) (chunks : List (List Nat)) : Writer × Except Unit Unit :=
  chunks.foldl
    (fun acc chunk =>
      match acc with
      | (w', Except.ok _) => w'.write_str chunk
      | (w', Except.error e) => (w', Except.error e))
    (w, Except.ok ())

/-- `_print`: lock the writer, call `write_fmt`, `unwrap()` the result; the
`none` branch models the panic `unwrap` would raise on an `Err`. -/
def printEntry (w : Writer) (chunks : List (List Nat)) : Option Writer :=
  match w.write_fmt chunks with
  | (w', Except.ok _) => some w'
  | (_, Except.error _) => none

theorem Writer.write_fmt_eq : ∀ (chunks : List (List Nat)) (w : Writer),
    w.write_fmt chunks =
      (chunks.foldl (fun w' chunk => w'.write_string chunk) w, Except.ok ())
  | [], _ => rfl
  | chunk :: rest, w => by
    have hstep : w.write_fmt (chunk :: rest) = (w.write_string chunk).write_fmt rest := rfl
    rw [hstep, Writer.write_fmt_eq rest (w.write_string chunk)]
    rfl

/-- C10: `write_str` returns `Ok(())` for every writer state and every input
string, so the `unwrap()` on `write_fmt` inside `_print` can never panic: the
entry point always returns `some` writer, never the `none` that models a
panic. -/
theorem Writer.write_str_ok (w : Writer) (s : List Nat) (chunks : List (List Nat)) :
    (w.write_str s).2 = Except.ok () ∧
    printEntry w chunks = some (w.write_fmt chunks).1 := by
  refine ⟨rfl, ?_⟩
  have h := Writer.write_fmt_eq chunks w
  unfold printEntry
  rw [h]

/-! ### The test harness and the QEMU exit protocol (`lib.rs`) -/

/-- The two `QemuExitCode` variants (`repr(u32)`). -/
inductive QemuExitCode where
  | Success
  | Failed
deriving DecidableEq, Repr

/-- The `repr(u32)` discriminant, `exit_code as u32`. -/
def QemuExitCode.toU32 : QemuExitCode → Nat
  | .Success => 0x10
  | .Failed => 0x11

/-- One I/O port write: port address, written value, and width in bytes. -/
structure PortWrite where
  port : Nat
  value : Nat
  width : Nat
deriving DecidableEq, Repr

/-- `exit_qemu`: create a port at 0xf4 and write the exit code to it as a u32
(a 4-byte write, the iosize configured for the isa-debug-exit device). -/
def exit_qemu (exit_code : QemuExitCode) : PortWrite :=
  { port := 0xf4, value := exit_code.toU32, width := 4 }

/-- The observable output events of the harness: text sent to the serial
diagnostic channel (`serial_print!`, and `serial_println!` which appends a
newline) and I/O port writes. -/
inductive Event where
  | serialPrint (s : String)
  | serialPrintln (s : String)
  | portOut (p : PortWrite)
deriving DecidableEq, Repr

/-- A test case as the harness sees it: its `type_name`, whether invoking it
panics, and the panic description formatted from the `PanicInfo` if so. -/
structure TestCase where
  name : String
  panics : Bool
  panicMsg : String
deriving DecidableEq, Repr

/-- `test_panic_handler`: emit "[failed]" plus the failure description on the
serial channel, then exit with Failed (the trailing `loop` emits nothing). -/
def test_panic_handler (msg : String) : List Event :=
  [Event.serialPrintln "[failed]\n",
   Event.serialPrintln ("Error: " ++ msg ++ "\n"),
   Event.portOut (exit_qemu QemuExitCode.Failed)]

/-- The `for test in tests` loop of `test_runner` followed by
`exit_qemu(Success)`. `Testable::run` prints the case name and a tab, invokes
the case, and prints "[ok]"; a panicking case instead diverts control to
`test_panic_handler`, which ends the whole run. -/
def runTestsLoop : List TestCase → List Event
  | [] => [Event.portOut (exit_qemu QemuExitCode.Success)]
  | t :: rest =>
    if t.panics then
      Event.serialPrint (t.name ++ "...\t") :: test_panic_handler t.panicMsg
    else
      Event.serialPrint (t.name ++ "...\t") :: Event.serialPrintln "[ok]" ::
        runTestsLoop rest

/-- `test_runner`: announce the number of tests, then run them in order. -/
def test_runner (tests : List TestCase) : List Event :=
  Event.serialPrintln ("Running " ++ toString tests.length ++ " tests") ::
    runTestsLoop tests

theorem runTestsLoop_all_ok : ∀ (tests : List TestCase),
    (∀ t ∈ tests, t.panics = false) →
    runTestsLoop tests =
      (tests.flatMap fun t =>
        [Event.serialPrint (t.name ++ "...\t"), Event.serialPrintln "[ok]"]) ++
      [Event.portOut (exit_qemu QemuExitCode.Success)]
  | [], _ => rfl
  | t :: rest, h => by
    have ht : t.panics = false := h t (List.mem_cons_self t rest)
    have ih := runTestsLoop_all_ok rest (fun x hx => h x (List.mem_cons_of_mem t hx))
    simp [runTestsLoop, ht, ih]

theorem runTestsLoop_ok_front : ∀ (pre : List TestCase),
    (∀ t ∈ pre, t.panics = false) → ∀ (rest : List TestCase),
    runTestsLoop (pre ++ rest) =
      (pre.flatMap fun t =>
        [Event.serialPrint (t.name ++ "...\t"), Event.serialPrintln "[ok]"]) ++
      runTestsLoop rest
  | [], _, rest => by simp
  | t :: pre, h, rest => by
    have ht : t.panics = false := h t (List.mem_cons_self t pre)
    have ih := runTestsLoop_ok_front pre (fun x hx => h x (List.mem_cons_of_mem t hx)) rest
    simp [runTestsLoop, ht, ih]

/-- C8: if every case returns normally, the harness first emits the
"Running N tests" line on the diagnostic channel, then for each case in
sequence order its name, a tab, and "[ok]", and after the last case writes
the Success exit code to the port; given zero cases it emits
"Running 0 tests" and exits with Success immediately. -/
theorem test_runner_success_spec (tests : List TestCase)
    (h : ∀ t ∈ tests, t.panics = false) :
    test_runner tests =
      Event.serialPrintln ("Running " ++ toString tests.length ++ " tests") ::
      (tests.flatMap fun t =>
        [Event.serialPrint (t.name ++ "...\t"), Event.serialPrintln "[ok]"]) ++
      [Event.portOut (exit_qemu QemuExitCode.Success)] ∧
    test_runner [] =
      [Event.serialPrintln "Running 0 tests",
       Event.portOut { port := 0xf4, value := 0x10, width := 4 }] := by
  constructor
  · unfold test_runner
    rw [runTestsLoop_all_ok tests h]
    simp
  · rfl

/-- C8 witness: the success transcript for two concrete passing cases, and
the zero-case transcript. -/
theorem test_runner_success_spec_witness :
    test_runner [⟨"t1", false, ""⟩, ⟨"t2", false, ""⟩] =
      Event.serialPrintln
        ("Running " ++ toString ([⟨"t1", false, ""⟩, ⟨"t2", false, ""⟩] :
          List TestCase).length ++ " tests") ::
      (([⟨"t1", false, ""⟩, ⟨"t2", false, ""⟩] : List TestCase).flatMap fun t =>
        [Event.serialPrint (t.name ++ "...\t"), Event.serialPrintln "[ok]"]) ++
      [Event.portOut (exit_qemu QemuExitCode.Success)] ∧
    test_runner [] =
      [Event.serialPrintln "Running 0 tests",
       Event.portOut { port := 0xf4, value := 0x10, width := 4 }] :=
  test_runner_success_spec [⟨"t1", false, ""⟩, ⟨"t2", false, ""⟩] (by decide)

/-- C9: if a case panics, the harness emits that case's name, then the
"[failed]" line and the failure description, then writes the 32-bit value
0x11 to port 0xF4 as a 4-byte write, and runs no further cases (the cases
after the panicking one contribute no events); on the success path the same
port receives 0x10. -/
theorem test_runner_panic_spec (pre : List TestCase) (bad : TestCase)
    (post : List TestCase)
    (hpre : ∀ t ∈ pre, t.panics = false) (hbad : bad.panics = true) :
    test_runner (pre ++ bad :: post) =
      Event.serialPrintln
        ("Running " ++ toString (pre ++ bad :: post).length ++ " tests") ::
      (pre.flatMap fun t =>
        [Event.serialPrint (t.name ++ "...\t"), Event.serialPrintln "[ok]"]) ++
      Event.serialPrint (bad.name ++ "...\t") ::
      [Event.serialPrintln "[failed]\n",
       Event.serialPrintln ("Error: " ++ bad.panicMsg ++ "\n"),
       Event.portOut { port := 0xf4, value := 0x11, width := 4 }] ∧
    exit_qemu QemuExitCode.Failed = { port := 0xf4, value := 0x11, width := 4 } ∧
    exit_qemu QemuExitCode.Success = { port := 0xf4, value := 0x10, width := 4 } := by
  refine ⟨?_, rfl, rfl⟩
  unfold test_runner
  rw [runTestsLoop_ok_front pre hpre (bad :: post)]
  simp [runTestsLoop, hbad, test_panic_handler, exit_qemu, QemuExitCode.toU32]

/-- C9 witness: one passing case, then a panicking case, then a case that is
never reached. -/
theorem test_runner_panic_spec_witness :
    test_runner ([⟨"t1", false, ""⟩] ++ ⟨"boom", true, "assertion failed"⟩ ::
        [⟨"t3", false, ""⟩]) =
      Event.serialPrintln
        ("Running " ++ toString (([⟨"t1", false, ""⟩] : List TestCase) ++
          (⟨"boom", true, "assertion failed"⟩ : TestCase) ::
          [⟨"t3", false, ""⟩]).length ++ " tests") ::
      (([⟨"t1", false, ""⟩] : List TestCase).flatMap fun t =>
        [Event.serialPrint (t.name ++ "...\t"), Event.serialPrintln "[ok]"]) ++
      Event.serialPrint ((⟨"boom", true, "assertion failed"⟩ : TestCase).name
        ++ "...\t") ::
      [Event.serialPrintln "[failed]\n",
       Event.serialPrintln ("Error: " ++
         (⟨"boom", true, "assertion failed"⟩ : TestCase).panicMsg ++ "\n"),
       Event.portOut { port := 0xf4, value := 0x11, width := 4 }] ∧
    exit_qemu QemuExitCode.Failed = { port := 0xf4, value := 0x11, width := 4 } ∧
    exit_qemu QemuExitCode.Success = { port := 0xf4, value := 0x10, width := 4 } :=
  test_runner_panic_spec [⟨"t1", false, ""⟩] ⟨"boom", true, "assertion failed"⟩
    [⟨"t3", false, ""⟩] (by decide) (by decide)

end Minios
